import Mathlib

/-!
Shallow embedding of the libosmium mmap-backed vector and PBF string table.

Sources embedded:
* `src/include/osmium/index/detail/mmap_vector_base.hpp` — class `mmap_vector_base<T>`:
  a growable array over one typed memory mapping, with sentinel-driven trimming.
* `src/include/osmium/io/detail/string_table.hpp` — class `StringTable`:
  content-deduplicating string-to-index table.

The memory-mapping primitive (`osmium/util/memory_mapping.hpp`, `typed_mmap.hpp`) is not
under `src/`; only its tests and callers are.  Those parts are modelled from the spec and
carry a doc comment saying so.

The mapped region is modelled as a total function `Nat → α` together with an element
capacity; reads outside the mapping are undefined behaviour in C++ and simply return
whatever the model function yields.  Fallibility of the OS-level remap is abstracted by a
boolean oracle `ok`; mutating operations return the state after the call together with
`Option String`, `some msg` meaning the C++ code threw (`this` keeps the mutations that
happened before the throw, which for these functions is none).
-/

/-- Element count by which the capacity grows on exhaustion
(`osmium::detail::mmap_vector_size_increment`). -/
def mmap_vector_size_increment : Nat := 1024 * 1024

/-- State of `osmium::detail::mmap_vector_base<T>`: logical size `m_size` and the owned
typed memory mapping, split into its element capacity (`m_mapping.size()`) and its
content (`m_data i` is `data()[i]`). -/
structure mmap_vector_base (α : Type) where
  m_size : Nat
  m_capacity : Nat
  m_data : Nat → α

/-- Model of `std::fill(data() + a, data() + b, x)` on a mapped region. -/
def fillRange {α : Type} (f : Nat → α) (a b : Nat) (x : α) : Nat → α :=
  fun i => if a ≤ i ∧ i < b then x else f i

/-- Model of the single element store `data()[n] = x`. -/
def setIdx {α : Type} (f : Nat → α) (n : Nat) (x : α) : Nat → α :=
  fun i => if i = n then x else f i

/-- Modelled from the spec: the in-place extension strategy of
`typed_mmap::remap(base, old_n, new_n)` (the primitive lives in
`osmium/index/detail/typed_mmap.hpp`, which is not under `src/`).  Existing pages keep
their content, freshly mapped pages are zero-filled. -/
def remapInPlace {α : Type} (zero : α) (f : Nat → α) (old_n new_n : Nat) : Nat → α :=
  fun i => if i < old_n then f i else zero

/-- Modelled from the spec: the unmap + map + copy strategy of
`typed_mmap::remap(base, old_n, new_n)`: a fresh region (content `junk`) receives a copy
of the first `min old_n new_n` elements of the old region. -/
def remapCopy {α : Type} (junk : Nat → α) (f : Nat → α) (old_n new_n : Nat) : Nat → α :=
  fun i => if i < min old_n new_n then f i else junk i

/-- Modelled from the spec: `m_mapping.resize(new_n)` routes through the primitive's
remap; it may fail with a resource error, and a failed call leaves the previously valid
mapping untouched (spec section 4.1).  The boolean `ok` abstracts whether the OS call
succeeds. -/
def mappingResize {α : Type} (ok : Bool) (zero : α) (f : Nat → α) (old_n new_n : Nat) :
    Except String (Nat → α) :=
  if ok then Except.ok (remapInPlace zero f old_n new_n) else Except.error "resource error"

/-- Loop of `shrink_to_fit`: `while (m_size > 0 && data()[m_size - 1] == empty_value) --m_size`. -/
def shrinkSize {α : Type} [DecidableEq α] (e : α) (f : Nat → α) : Nat → Nat
  | 0 => 0
  | n + 1 => if f n = e then shrinkSize e f n else n + 1

/-- Accessor `capacity()` (delegates to `m_mapping.size()`). -/
def mmap_vector_base.capacity {α : Type} (v : mmap_vector_base α) : Nat :=
  v.m_capacity

/-- Accessor `size()`. -/
def mmap_vector_base.size {α : Type} (v : mmap_vector_base α) : Nat :=
  v.m_size

/-- Member `clear()`: sets `m_size` to 0, nothing else. -/
def mmap_vector_base.clear {α : Type} (v : mmap_vector_base α) : mmap_vector_base α :=
  { v with m_size := 0 }

/-- Member `shrink_to_fit()` with sentinel `e` (`osmium::index::empty_value<T>()`). -/
def mmap_vector_base.shrink_to_fit {α : Type} [DecidableEq α] (e : α)
    (v : mmap_vector_base α) : mmap_vector_base α :=
  { v with m_size := shrinkSize e v.m_data v.m_size }

/-- Member `at(n)`: throws `std::out_of_range` when `n >= m_size`, otherwise returns
`data()[n]`.  The method is `const`, so no state is returned. -/
def mmap_vector_base.at' {α : Type} (v : mmap_vector_base α) (n : Nat) : Except String α :=
  if n ≥ v.m_size then Except.error "out of range" else Except.ok (v.m_data n)

/-- Member `reserve(new_capacity)`: grows the mapping to exactly `new_capacity` when
`new_capacity > capacity()` and fills the new slots with the sentinel `e`; otherwise does
nothing.  On a remap failure the exception propagates with the array untouched. -/
def mmap_vector_base.reserve {α : Type} (ok : Bool) (zero e : α)
    (v : mmap_vector_base α) (new_capacity : Nat) : mmap_vector_base α × Option String :=
  if new_capacity > v.capacity then
    match mappingResize ok zero v.m_data v.m_capacity new_capacity with
    | Except.error s => (v, some s)
    | Except.ok nf =>
        ({ v with m_capacity := new_capacity,
                  m_data := fillRange nf v.m_capacity new_capacity e }, none)
  else (v, none)

/-- Member `resize(new_size)`: reserves `new_size + mmap_vector_size_increment` first when
`new_size > capacity()`, then sets `m_size := new_size`; a reserve failure propagates and
skips the size assignment. -/
def mmap_vector_base.resize {α : Type} (ok : Bool) (zero e : α)
    (v : mmap_vector_base α) (new_size : Nat) : mmap_vector_base α × Option String :=
  if new_size > v.capacity then
    match v.reserve ok zero e (new_size + mmap_vector_size_increment) with
    | (v', some s) => (v', some s)
    | (v', none) => ({ v' with m_size := new_size }, none)
  else ({ v with m_size := new_size }, none)

/-- Member `push_back(value)`: `resize(m_size + 1)` then `data()[m_size - 1] = value`;
a resize failure propagates and skips the write. -/
def mmap_vector_base.push_back {α : Type} (ok : Bool) (zero e : α)
    (v : mmap_vector_base α) (value : α) : mmap_vector_base α × Option String :=
  match v.resize ok zero e (v.m_size + 1) with
  | (v', some s) => (v', some s)
  | (v', none) => ({ v' with m_data := setIdx v'.m_data (v'.m_size - 1) value }, none)

/-- Anonymous constructor `mmap_vector_base(capacity)`: maps a fresh anonymous region of
`capacity` elements (unspecified content `junk`) and fills `[0, capacity)` with the
sentinel `e`. -/
def mmap_vector_anon {α : Type} (junk : Nat → α) (e : α) (capacity : Nat) :
    mmap_vector_base α :=
  { m_size := 0, m_capacity := capacity, m_data := fillRange junk 0 capacity e }

/-- Modelled from the spec: constructing a `TypedMemoryMapping` over a file descriptor
(`osmium/util/memory_mapping.hpp`, not under `src/`) grows the file to `capacity`
elements if needed (zero-filled) and maps its first `capacity` elements. -/
def mapFile {α : Type} (zero : α) (file : List α) (capacity : Nat) : Nat → α :=
  fun i => if i < capacity then file.getD i zero else zero

/-- File-backed constructor `mmap_vector_base(fd, capacity, size)`: maps `capacity`
elements of the file, fills `[size, capacity)` with the sentinel `e`, then calls
`shrink_to_fit()`.  The documented precondition (asserted in the code) is
`size <= capacity`. -/
def mmap_vector_from_fd {α : Type} [DecidableEq α] (zero e : α) (file : List α)
    (capacity size : Nat) : mmap_vector_base α :=
  mmap_vector_base.shrink_to_fit e
    { m_size := size, m_capacity := capacity,
      m_data := fillRange (mapFile zero file capacity) size capacity e }

/-- Modelled from the spec: the mapping is `write_shared`, so after `close()` the file
holds the region's `capacity` elements. -/
def fileAfterClose {α : Type} (v : mmap_vector_base α) : List α :=
  (List.range v.m_capacity).map v.m_data

/-- Modelled from the spec: the file-backed wrapper (`mmap_vector_file`, not under
`src/`) resumes against an existing file with `size` equal to the element count currently
stored in the file (`file_size(fd)`), so that construction recovers populated data from a
prior run. -/
def mmap_vector_file_resume {α : Type} [DecidableEq α] (zero e : α) (file : List α)
    (capacity : Nat) : mmap_vector_base α :=
  mmap_vector_from_fd zero e file capacity file.length

/-- Sentinel-suffix property: every slot in `[size, capacity)` holds the sentinel. -/
def SentinelSuffix {α : Type} (e : α) (v : mmap_vector_base α) : Prop :=
  ∀ i, v.m_size ≤ i → i < v.m_capacity → v.m_data i = e

/-- One public operation on the growable array, for quantifying over operation
sequences. -/
inductive ArrOp (α : Type) where
  | push (w : α)
  | reserveOp (n : Nat)
  | resizeOp (n : Nat)
  | clearOp
  | shrinkOp
  | atOp (n : Nat)

/-- Apply one public operation; the boolean is the success oracle of any remap the
operation performs.  `at` is a `const` member, so it leaves the state unchanged. -/
def applyOp {α : Type} [DecidableEq α] (zero e : α) (v : mmap_vector_base α) :
    Bool × ArrOp α → mmap_vector_base α
  | (ok, ArrOp.push w) => (v.push_back ok zero e w).1
  | (ok, ArrOp.reserveOp n) => (v.reserve ok zero e n).1
  | (ok, ArrOp.resizeOp n) => (v.resize ok zero e n).1
  | (_, ArrOp.clearOp) => v.clear
  | (_, ArrOp.shrinkOp) => v.shrink_to_fit e
  | (_, ArrOp.atOp _) => v

/-- Run a sequence of public operations. -/
def runOps {α : Type} [DecidableEq α] (zero e : α) :
    mmap_vector_base α → List (Bool × ArrOp α) → mmap_vector_base α
  | v, [] => v
  | v, op :: rest => runOps zero e (applyOp zero e v op) rest

/-- Push a list of values with `push_back`, stopping at the first thrown exception. -/
def pushMany {α : Type} [DecidableEq α] (ok : Bool) (zero e : α) :
    mmap_vector_base α × Option String → List α → mmap_vector_base α × Option String
  | p, [] => p
  | (v, some s), _ :: _ => (v, some s)
  | (v, none), w :: rest => pushMany ok zero e (v.push_back ok zero e w) rest

/-- State of `osmium::io::detail::StringTable`: the dedup map `m_index` (keyed by string
content, since `StrComp` compares the stored copies with `strcmp`) and the counter
`m_size`.  The chunked `StringStore` only affects iteration order, which no claim here
touches, so it is not carried; `m_size` is a `uint32_t` in C++, but the overflow check
against `max_entries` (a constant from `pbf.hpp`, not under `src/`, here an explicit
argument `max_entries` of `add`) keeps it far below `2^32`, so `Nat` is faithful. -/
structure StringTable where
  m_index : List (String × Nat)
  m_size : Nat

/-- Constructor `StringTable()`: the store gets the empty string, which is not entered
into `m_index`; `m_size` starts at 0. -/
def StringTable.init : StringTable :=
  { m_index := [], m_size := 0 }

/-- Member `size()`: returns `m_size + 1` (the interned empty string occupies entry 0). -/
def StringTable.size (t : StringTable) : Nat :=
  t.m_size + 1

/-- Member `add(s)`: returns the existing index when `m_index` already has an entry whose
content equals `s`; otherwise stores the string, maps it to `++m_size`, and throws when
`m_size` exceeds `max_entries` (the map entry and the increment stay in place even then).
Returns the state after the call with the result or the thrown error. -/
def StringTable.add (max_entries : Nat) (t : StringTable) (s : String) :
    StringTable × Except String Nat :=
  match t.m_index.lookup s with
  | some i => (t, Except.ok i)
  | none =>
      let t' : StringTable := { m_index := t.m_index ++ [(s, t.m_size + 1)],
                                m_size := t.m_size + 1 }
      if t.m_size + 1 > max_entries then
        (t', Except.error "string table has too many entries")
      else
        (t', Except.ok (t.m_size + 1))

/-- Run a sequence of `add` calls, keeping the state (the C++ object survives a thrown
`pbf_error` with the insertion already made). -/
def StringTable.addAll (max_entries : Nat) : StringTable → List String → StringTable
  | t, [] => t
  | t, s :: rest => StringTable.addAll max_entries (StringTable.add max_entries t s).1 rest

/-- Well-formedness of a reachable `StringTable` state: `m_size` counts the entries, the
assigned indices are exactly `1, 2, ..., m_size` in insertion order, and keys are
distinct. -/
def StringTable.Wf (t : StringTable) : Prop :=
  t.m_size = t.m_index.length ∧
  t.m_index.map Prod.snd = List.range' 1 t.m_index.length ∧
  (t.m_index.map Prod.fst).Nodup

/-! Helper lemmas about the shrink loop. -/

theorem shrinkSize_le {α : Type} [DecidableEq α] (e : α) (f : Nat → α) :
    ∀ n, shrinkSize e f n ≤ n := by
  intro n
  induction n with
  | zero => simp [shrinkSize]
  | succ n ih =>
      by_cases h : f n = e
      · simp only [shrinkSize, if_pos h]
        exact Nat.le_trans ih (Nat.le_succ n)
      · simp [shrinkSize, if_neg h]

theorem shrinkSize_sentinel {α : Type} [DecidableEq α] (e : α) (f : Nat → α) :
    ∀ n i, shrinkSize e f n ≤ i → i < n → f i = e := by
  intro n
  induction n with
  | zero => intro i _ hi; omega
  | succ n ih =>
      intro i h1 h2
      by_cases h : f n = e
      · rw [shrinkSize, if_pos h] at h1
        rcases Nat.lt_succ_iff_lt_or_eq.mp h2 with h2' | h2'
        · exact ih i h1 h2'
        · rw [h2']; exact h
      · rw [shrinkSize, if_neg h] at h1
        omega

theorem shrinkSize_last {α : Type} [DecidableEq α] (e : α) (f : Nat → α) :
    ∀ n, shrinkSize e f n = 0 ∨ f (shrinkSize e f n - 1) ≠ e := by
  intro n
  induction n with
  | zero => left; rfl
  | succ n ih =>
      by_cases h : f n = e
      · rw [shrinkSize, if_pos h]; exact ih
      · rw [shrinkSize, if_neg h]; right; simpa using h

theorem shrinkSize_eq_of {α : Type} [DecidableEq α] (e : α) (f : Nat → α) (n k : Nat)
    (hk : k ≤ n) (hlast : k = 0 ∨ f (k - 1) ≠ e)
    (hsent : ∀ j, k ≤ j → j < n → f j = e) : shrinkSize e f n = k := by
  rcases Nat.lt_trichotomy (shrinkSize e f n) k with h | h | h
  · exfalso
    have hk0 : k ≠ 0 := by omega
    rcases hlast with h0 | hne
    · exact hk0 h0
    · exact hne (shrinkSize_sentinel e f n (k - 1) (by omega) (by omega))
  · exact h
  · exfalso
    rcases shrinkSize_last e f n with h0 | hne
    · omega
    · have := shrinkSize_le e f n
      exact hne (hsent (shrinkSize e f n - 1) (by omega) (by omega))

/-! Branch lemmas for the mutating operations. -/

theorem reserve_no_grow {α : Type} (ok : Bool) (zero e : α) (v : mmap_vector_base α)
    (nc : Nat) (h : nc ≤ v.m_capacity) :
    v.reserve ok zero e nc = (v, none) := by
  rw [mmap_vector_base.reserve, if_neg]
  simp only [mmap_vector_base.capacity]
  omega

theorem reserve_fail {α : Type} (zero e : α) (v : mmap_vector_base α)
    (nc : Nat) (h : nc > v.m_capacity) :
    v.reserve false zero e nc = (v, some "resource error") := by
  simp only [mmap_vector_base.reserve, mmap_vector_base.capacity]
  rw [if_pos h]
  rfl

theorem reserve_grow {α : Type} (zero e : α) (v : mmap_vector_base α)
    (nc : Nat) (h : nc > v.m_capacity) :
    v.reserve true zero e nc =
      ({ m_size := v.m_size, m_capacity := nc,
         m_data := fillRange (remapInPlace zero v.m_data v.m_capacity nc)
           v.m_capacity nc e }, none) := by
  simp only [mmap_vector_base.reserve, mmap_vector_base.capacity]
  rw [if_pos h]
  rfl

theorem resize_no_grow {α : Type} (ok : Bool) (zero e : α) (v : mmap_vector_base α)
    (ns : Nat) (h : ns ≤ v.m_capacity) :
    v.resize ok zero e ns = ({ v with m_size := ns }, none) := by
  rw [mmap_vector_base.resize, if_neg]
  simp only [mmap_vector_base.capacity]
  omega

theorem resize_fail {α : Type} (zero e : α) (v : mmap_vector_base α)
    (ns : Nat) (h : ns > v.m_capacity) :
    v.resize false zero e ns = (v, some "resource error") := by
  simp only [mmap_vector_base.resize, mmap_vector_base.capacity]
  rw [if_pos h, reserve_fail zero e v (ns + mmap_vector_size_increment) (by omega)]

theorem resize_grow {α : Type} (zero e : α) (v : mmap_vector_base α)
    (ns : Nat) (h : ns > v.m_capacity) :
    v.resize true zero e ns =
      ({ m_size := ns, m_capacity := ns + mmap_vector_size_increment,
         m_data := fillRange
           (remapInPlace zero v.m_data v.m_capacity (ns + mmap_vector_size_increment))
           v.m_capacity (ns + mmap_vector_size_increment) e }, none) := by
  simp only [mmap_vector_base.resize, mmap_vector_base.capacity]
  rw [if_pos h, reserve_grow zero e v (ns + mmap_vector_size_increment) (by omega)]

theorem push_back_no_grow {α : Type} (ok : Bool) (zero e : α) (v : mmap_vector_base α)
    (w : α) (h : v.m_size + 1 ≤ v.m_capacity) :
    v.push_back ok zero e w =
      ({ m_size := v.m_size + 1, m_capacity := v.m_capacity,
         m_data := setIdx v.m_data v.m_size w }, none) := by
  rw [mmap_vector_base.push_back, resize_no_grow ok zero e v (v.m_size + 1) h]
  rfl

theorem push_back_fail {α : Type} (zero e : α) (v : mmap_vector_base α)
    (w : α) (h : v.m_size + 1 > v.m_capacity) :
    v.push_back false zero e w = (v, some "resource error") := by
  rw [mmap_vector_base.push_back, resize_fail zero e v (v.m_size + 1) h]

theorem push_back_grow {α : Type} (zero e : α) (v : mmap_vector_base α)
    (w : α) (h : v.m_size + 1 > v.m_capacity) :
    v.push_back true zero e w =
      ({ m_size := v.m_size + 1,
         m_capacity := v.m_size + 1 + mmap_vector_size_increment,
         m_data := setIdx
           (fillRange
             (remapInPlace zero v.m_data v.m_capacity
               (v.m_size + 1 + mmap_vector_size_increment))
             v.m_capacity (v.m_size + 1 + mmap_vector_size_increment) e)
           v.m_size w }, none) := by
  rw [mmap_vector_base.push_back, resize_grow zero e v (v.m_size + 1) h]
  rfl

/-! Claim theorems. -/

/-- Claim C6: `at(n)` fails with the bounds error exactly when `n >= size()`, and for
`n < size()` returns the value stored at index `n`; being a `const` member it touches no
state. -/
theorem claim_C6_at {α : Type} (v : mmap_vector_base α) (n : Nat) :
    (n ≥ v.size → v.at' n = Except.error "out of range")
    ∧ (n < v.size → v.at' n = Except.ok (v.m_data n)) := by
  simp only [mmap_vector_base.size]
  constructor
  · intro h
    rw [mmap_vector_base.at', if_pos h]
  · intro h
    rw [mmap_vector_base.at', if_neg (by omega)]

theorem claim_C6_at_witness :
    (mmap_vector_base.mk 1 2 (fun _ => (4 : Nat))).at' 0 = Except.ok 4
    ∧ (mmap_vector_base.mk 1 2 (fun _ => (4 : Nat))).at' 5 =
        Except.error "out of range" :=
  ⟨(claim_C6_at (mmap_vector_base.mk 1 2 (fun _ => (4 : Nat))) 0).2 (by decide),
   (claim_C6_at (mmap_vector_base.mk 1 2 (fun _ => (4 : Nat))) 5).1 (by decide)⟩

/-- Claim C7: `reserve(new_capacity)` is a no-op when `new_capacity <= capacity()`;
otherwise (successful remap) it makes the capacity exactly `new_capacity`, fills the new
slots `[old_capacity, new_capacity)` with the sentinel and preserves the slots
`[0, old_capacity)` bit-identically, leaving `size()` unchanged. -/
theorem claim_C7_reserve {α : Type} (ok : Bool) (zero e : α) (v : mmap_vector_base α)
    (nc : Nat) :
    (nc ≤ v.capacity → v.reserve ok zero e nc = (v, none))
    ∧ (nc > v.capacity →
        (v.reserve true zero e nc).2 = none
        ∧ (v.reserve true zero e nc).1.size = v.size
        ∧ (v.reserve true zero e nc).1.capacity = nc
        ∧ (∀ i, v.capacity ≤ i → i < nc → (v.reserve true zero e nc).1.m_data i = e)
        ∧ (∀ i, i < v.capacity → (v.reserve true zero e nc).1.m_data i = v.m_data i)) := by
  simp only [mmap_vector_base.capacity]
  constructor
  · intro h
    exact reserve_no_grow ok zero e v nc h
  · intro h
    rw [reserve_grow zero e v nc h]
    refine ⟨rfl, rfl, rfl, ?_, ?_⟩
    · intro i h1 h2
      simp only [fillRange]
      rw [if_pos ⟨h1, h2⟩]
    · intro i h1
      simp only [fillRange, remapInPlace]
      rw [if_neg (by omega), if_pos h1]

theorem claim_C7_reserve_witness :
    (mmap_vector_base.mk 1 2 (fun _ => (3 : Nat))).reserve false 0 9 2 =
        (mmap_vector_base.mk 1 2 (fun _ => (3 : Nat)), none)
    ∧ ((mmap_vector_base.mk 1 2 (fun _ => (3 : Nat))).reserve true 0 9 5).1.m_data 3 = 9
    ∧ ((mmap_vector_base.mk 1 2 (fun _ => (3 : Nat))).reserve true 0 9 5).1.m_data 0 = 3 :=
  ⟨(claim_C7_reserve false 0 9 (mmap_vector_base.mk 1 2 (fun _ => (3 : Nat))) 2).1
     (by decide),
   (claim_C7_reserve true 0 9 (mmap_vector_base.mk 1 2 (fun _ => (3 : Nat))) 5).2
     (by decide) |>.2.2.2.1 3 (by decide) (by decide),
   (claim_C7_reserve true 0 9 (mmap_vector_base.mk 1 2 (fun _ => (3 : Nat))) 5).2
     (by decide) |>.2.2.2.2 0 (by decide)⟩

/-- Claim C8: growth is atomic on failure.  If the mapping resize fails inside `reserve`,
`resize` or `push_back`, the operation propagates the resource error and leaves the array
exactly as before the call (in particular `push_back` attempts no element write); and a
failing remap during a required growth does surface as the error. -/
theorem claim_C8_growth_atomic {α : Type} (ok : Bool) (zero e : α)
    (v : mmap_vector_base α) (n : Nat) (w : α) :
    ((v.reserve ok zero e n).2 ≠ none → (v.reserve ok zero e n).1 = v)
    ∧ ((v.resize ok zero e n).2 ≠ none → (v.resize ok zero e n).1 = v)
    ∧ ((v.push_back ok zero e w).2 ≠ none → (v.push_back ok zero e w).1 = v)
    ∧ (ok = false → n > v.capacity →
        (v.reserve ok zero e n).2 = some "resource error")
    ∧ (ok = false → n > v.capacity →
        (v.resize ok zero e n).2 = some "resource error")
    ∧ (ok = false → v.size + 1 > v.capacity →
        (v.push_back ok zero e w).2 = some "resource error") := by
  simp only [mmap_vector_base.capacity, mmap_vector_base.size]
  cases ok with
  | true =>
      refine ⟨?_, ?_, ?_, ?_, ?_, ?_⟩
      · intro h
        exfalso
        by_cases hg : n > v.m_capacity
        · rw [reserve_grow zero e v n hg] at h
          exact h rfl
        · rw [reserve_no_grow true zero e v n (by omega)] at h
          exact h rfl
      · intro h
        exfalso
        by_cases hg : n > v.m_capacity
        · rw [resize_grow zero e v n hg] at h
          exact h rfl
        · rw [resize_no_grow true zero e v n (by omega)] at h
          exact h rfl
      · intro h
        exfalso
        by_cases hg : v.m_size + 1 > v.m_capacity
        · rw [push_back_grow zero e v w hg] at h
          exact h rfl
        · rw [push_back_no_grow true zero e v w (by omega)] at h
          exact h rfl
      · intro h; exact absurd h (by simp)
      · intro h; exact absurd h (by simp)
      · intro h; exact absurd h (by simp)
  | false =>
      refine ⟨?_, ?_, ?_, ?_, ?_, ?_⟩
      · intro h
        by_cases hg : n > v.m_capacity
        · rw [reserve_fail zero e v n hg]
        · rw [reserve_no_grow false zero e v n (by omega)] at h
          exact absurd rfl h
      · intro h
        by_cases hg : n > v.m_capacity
        · rw [resize_fail zero e v n hg]
        · rw [resize_no_grow false zero e v n (by omega)] at h
          exact absurd rfl h
      · intro h
        by_cases hg : v.m_size + 1 > v.m_capacity
        · rw [push_back_fail zero e v w hg]
        · rw [push_back_no_grow false zero e v w (by omega)] at h
          exact absurd rfl h
      · intro _ hg
        rw [reserve_fail zero e v n hg]
      · intro _ hg
        rw [resize_fail zero e v n hg]
      · intro _ hg
        rw [push_back_fail zero e v w hg]

theorem claim_C8_growth_atomic_witness :
    ((mmap_vector_base.mk 0 0 (fun _ => (0 : Nat))).reserve false 0 0 1).1 =
        mmap_vector_base.mk 0 0 (fun _ => (0 : Nat))
    ∧ ((mmap_vector_base.mk 0 0 (fun _ => (0 : Nat))).reserve false 0 0 1).2 =
        some "resource error"
    ∧ ((mmap_vector_base.mk 0 0 (fun _ => (0 : Nat))).push_back false 0 0 5).2 =
        some "resource error" :=
  ⟨(claim_C8_growth_atomic false 0 0 (mmap_vector_base.mk 0 0 (fun _ => (0 : Nat))) 1 5).1
     (by decide),
   (claim_C8_growth_atomic false 0 0
     (mmap_vector_base.mk 0 0 (fun _ => (0 : Nat))) 1 5).2.2.2.1 rfl (by decide),
   (claim_C8_growth_atomic false 0 0
     (mmap_vector_base.mk 0 0 (fun _ => (0 : Nat))) 1 5).2.2.2.2.2 rfl (by decide)⟩

/-- Claim C3: `shrink_to_fit()` leaves capacity and contents alone and sets the size to
the result of decrementing it while the slot at `size - 1` equals the sentinel: the new
size is at most the old one, every trimmed slot held the sentinel, the scan stops at the
first non-sentinel slot or at 0, and any `k` with those properties is the result.  In
particular the two concrete scenarios of the claim evaluate to 5 and 0. -/
theorem claim_C3_shrink_to_fit {α : Type} [DecidableEq α] (e : α)
    (v : mmap_vector_base α) :
    (v.shrink_to_fit e).capacity = v.capacity
    ∧ (v.shrink_to_fit e).m_data = v.m_data
    ∧ (v.shrink_to_fit e).size ≤ v.size
    ∧ (∀ i, (v.shrink_to_fit e).size ≤ i → i < v.size → v.m_data i = e)
    ∧ ((v.shrink_to_fit e).size = 0 ∨ v.m_data ((v.shrink_to_fit e).size - 1) ≠ e)
    ∧ (∀ k, k ≤ v.size → (k = 0 ∨ v.m_data (k - 1) ≠ e) →
        (∀ j, k ≤ j → j < v.size → v.m_data j = e) → (v.shrink_to_fit e).size = k)
    ∧ ((mmap_vector_base.mk 100 100
          (fun i => if i < 5 then i + 1 else 0)).shrink_to_fit 0).size = 5
    ∧ ((mmap_vector_base.mk 100 100 (fun _ => (0 : Nat))).shrink_to_fit 0).size = 0 := by
  simp only [mmap_vector_base.shrink_to_fit, mmap_vector_base.size,
    mmap_vector_base.capacity]
  refine ⟨trivial, trivial, shrinkSize_le e v.m_data v.m_size, ?_, ?_, ?_, by decide,
    by decide⟩
  · exact shrinkSize_sentinel e v.m_data v.m_size
  · exact shrinkSize_last e v.m_data v.m_size
  · intro k h1 h2 h3
    exact shrinkSize_eq_of e v.m_data v.m_size k h1 h2 h3

theorem claim_C3_shrink_to_fit_witness :
    ((mmap_vector_base.mk 100 100
        (fun i => if i < 5 then i + 1 else 0)).shrink_to_fit 0).size = 5
    ∧ (mmap_vector_base.mk 100 100 (fun i => if i < 5 then i + 1 else 0)).m_data 7 = 0 :=
  ⟨(claim_C3_shrink_to_fit 0
      (mmap_vector_base.mk 100 100 (fun i => if i < 5 then i + 1 else 0))).2.2.2.2.2.1 5
      (by decide) (by decide)
      (fun j h1 _ => by
        show (if j < 5 then j + 1 else 0) = 0
        rw [if_neg (by omega)]),
   (claim_C3_shrink_to_fit 0
      (mmap_vector_base.mk 100 100 (fun i => if i < 5 then i + 1 else 0))).2.2.2.1 7
      (by decide) (by decide)⟩

/-- Claim C4: on an array satisfying the size-capacity invariant, `push_back(w)` first
secures capacity — growing it to `size + 1 + mmap_vector_size_increment` exactly when
`size + 1 > capacity` — then writes `w` at index `size`, makes the size `size + 1`, and
leaves the elements at indices `[0, size)` unchanged, with no error on the success
path. -/
theorem claim_C4_push_back {α : Type} (zero e : α) (v : mmap_vector_base α) (w : α)
    (h : v.size ≤ v.capacity) :
    (v.push_back true zero e w).2 = none
    ∧ (v.push_back true zero e w).1.size = v.size + 1
    ∧ (v.push_back true zero e w).1.capacity =
        (if v.size + 1 > v.capacity then v.size + 1 + mmap_vector_size_increment
         else v.capacity)
    ∧ (v.push_back true zero e w).1.m_data v.size = w
    ∧ (∀ i, i < v.size → (v.push_back true zero e w).1.m_data i = v.m_data i) := by
  simp only [mmap_vector_base.size, mmap_vector_base.capacity] at h ⊢
  by_cases hg : v.m_size + 1 > v.m_capacity
  · rw [push_back_grow zero e v w hg, if_pos hg]
    have hsc : v.m_size = v.m_capacity := by omega
    refine ⟨rfl, rfl, rfl, ?_, ?_⟩
    · simp [setIdx]
    · intro i hi
      simp only [setIdx, fillRange, remapInPlace]
      rw [if_neg (by omega), if_neg (by omega), if_pos (by omega)]
  · rw [push_back_no_grow true zero e v w (by omega), if_neg hg]
    refine ⟨rfl, rfl, rfl, ?_, ?_⟩
    · simp [setIdx]
    · intro i hi
      simp only [setIdx]
      rw [if_neg (by omega)]

theorem claim_C4_push_back_witness :
    ((mmap_vector_base.mk 1 2 (fun _ => (3 : Nat))).push_back true 0 9 5).1.m_data 0 = 3
    ∧ ((mmap_vector_base.mk 2 2 (fun _ => (3 : Nat))).push_back true 0 9 5).1.capacity =
        2 + 1 + mmap_vector_size_increment :=
  ⟨(claim_C4_push_back 0 9 (mmap_vector_base.mk 1 2 (fun _ => (3 : Nat))) 5
      (by decide)).2.2.2.2 0 (by decide),
   ((claim_C4_push_back 0 9 (mmap_vector_base.mk 2 2 (fun _ => (3 : Nat))) 5
      (by decide)).2.2.1).trans (by decide)⟩

/-- Application of any single public operation preserves the size-capacity invariant. -/
theorem applyOp_inv {α : Type} [DecidableEq α] (zero e : α) (v : mmap_vector_base α)
    (p : Bool × ArrOp α) (h : v.m_size ≤ v.m_capacity) :
    (applyOp zero e v p).m_size ≤ (applyOp zero e v p).m_capacity := by
  obtain ⟨ok, op⟩ := p
  cases op with
  | push w =>
      simp only [applyOp]
      by_cases hg : v.m_size + 1 > v.m_capacity
      · cases ok
        · rw [push_back_fail zero e v w hg]
          exact h
        · rw [push_back_grow zero e v w hg]
          show v.m_size + 1 ≤ v.m_size + 1 + mmap_vector_size_increment
          omega
      · rw [push_back_no_grow ok zero e v w (by omega)]
        show v.m_size + 1 ≤ v.m_capacity
        omega
  | reserveOp n =>
      simp only [applyOp]
      by_cases hg : n > v.m_capacity
      · cases ok
        · rw [reserve_fail zero e v n hg]
          exact h
        · rw [reserve_grow zero e v n hg]
          show v.m_size ≤ n
          omega
      · rw [reserve_no_grow ok zero e v n (by omega)]
        exact h
  | resizeOp n =>
      simp only [applyOp]
      by_cases hg : n > v.m_capacity
      · cases ok
        · rw [resize_fail zero e v n hg]
          exact h
        · rw [resize_grow zero e v n hg]
          show n ≤ n + mmap_vector_size_increment
          omega
      · rw [resize_no_grow ok zero e v n (by omega)]
        show n ≤ v.m_capacity
        omega
  | clearOp =>
      simp only [applyOp, mmap_vector_base.clear]
      omega
  | shrinkOp =>
      simp only [applyOp, mmap_vector_base.shrink_to_fit]
      exact Nat.le_trans (shrinkSize_le e v.m_data v.m_size) h
  | atOp n =>
      simp only [applyOp]
      exact h

/-- Running any sequence of public operations preserves the size-capacity invariant. -/
theorem runOps_inv {α : Type} [DecidableEq α] (zero e : α) :
    ∀ (ops : List (Bool × ArrOp α)) (v : mmap_vector_base α),
      v.m_size ≤ v.m_capacity →
      (runOps zero e v ops).m_size ≤ (runOps zero e v ops).m_capacity := by
  intro ops
  induction ops with
  | nil => intro v h; exact h
  | cons p rest ih =>
      intro v h
      exact ih (applyOp zero e v p) (applyOp_inv zero e v p h)

/-- Claim C1: `size() <= capacity()` holds after anonymous or file-backed construction
(the latter under its documented precondition `size <= capacity`) and after every
sequence of public operations (`push_back`, `reserve`, `resize`, `clear`,
`shrink_to_fit`, `at`), whether or not the remaps involved succeed. -/
theorem claim_C1_size_le_capacity {α : Type} [DecidableEq α] (zero e : α)
    (junk : Nat → α) (file : List α) (cap sz : Nat) (ops : List (Bool × ArrOp α)) :
    (runOps zero e (mmap_vector_anon junk e cap) ops).size ≤
      (runOps zero e (mmap_vector_anon junk e cap) ops).capacity
    ∧ (sz ≤ cap →
        (runOps zero e (mmap_vector_from_fd zero e file cap sz) ops).size ≤
          (runOps zero e (mmap_vector_from_fd zero e file cap sz) ops).capacity) := by
  simp only [mmap_vector_base.size, mmap_vector_base.capacity]
  constructor
  · exact runOps_inv zero e ops (mmap_vector_anon junk e cap) (Nat.zero_le _)
  · intro hsz
    refine runOps_inv zero e ops (mmap_vector_from_fd zero e file cap sz) ?_
    show shrinkSize e _ sz ≤ cap
    exact Nat.le_trans (shrinkSize_le e _ sz) hsz

theorem claim_C1_size_le_capacity_witness :
    (runOps 0 7 (mmap_vector_anon (fun _ => 0) 7 3)
        [(true, ArrOp.push 5), (false, ArrOp.resizeOp 9), (true, ArrOp.clearOp)]).size ≤
      (runOps 0 7 (mmap_vector_anon (fun _ => 0) 7 3)
        [(true, ArrOp.push 5), (false, ArrOp.resizeOp 9), (true, ArrOp.clearOp)]).capacity
    ∧ (runOps 0 7 (mmap_vector_from_fd 0 7 ([1, 2] : List Nat) 4 2)
        [(true, ArrOp.push 5), (true, ArrOp.shrinkOp)]).size ≤
      (runOps 0 7 (mmap_vector_from_fd 0 7 ([1, 2] : List Nat) 4 2)
        [(true, ArrOp.push 5), (true, ArrOp.shrinkOp)]).capacity :=
  ⟨(claim_C1_size_le_capacity 0 7 (fun _ => 0) [] 3 0
      [(true, ArrOp.push 5), (false, ArrOp.resizeOp 9), (true, ArrOp.clearOp)]).1,
   (claim_C1_size_le_capacity 0 7 (fun _ => 0) [1, 2] 4 2
      [(true, ArrOp.push 5), (true, ArrOp.shrinkOp)]).2 (by decide)⟩

/-- Claim C9: both remap strategies — in-place extension and unmap-map-copy — preserve
the first `min old_n new_n` elements bit-identically and agree with each other there; in
particular growing a region from `k` to `k * 10` elements preserves the `k` written
values. -/
theorem claim_C9_remap_preserves {α : Type} (zero : α) (junk f : Nat → α)
    (old_n new_n k i : Nat) :
    (i < min old_n new_n →
        remapInPlace zero f old_n new_n i = f i
        ∧ remapCopy junk f old_n new_n i = f i
        ∧ remapInPlace zero f old_n new_n i = remapCopy junk f old_n new_n i)
    ∧ (i < k →
        remapInPlace zero f k (k * 10) i = f i
        ∧ remapCopy junk f k (k * 10) i = f i) := by
  constructor
  · intro h
    have h1 : i < old_n := lt_of_lt_of_le h (min_le_left _ _)
    refine ⟨?_, ?_, ?_⟩
    · simp only [remapInPlace]
      rw [if_pos h1]
    · simp only [remapCopy]
      rw [if_pos h]
    · simp only [remapInPlace, remapCopy]
      rw [if_pos h1, if_pos h]
  · intro h
    have hmin : i < min k (k * 10) := Nat.lt_min.mpr ⟨h, by omega⟩
    constructor
    · simp only [remapInPlace]
      rw [if_pos h]
    · simp only [remapCopy]
      rw [if_pos hmin]

theorem claim_C9_remap_preserves_witness :
    remapInPlace 0 (fun i => i + 1) 3 5 2 = 3
    ∧ remapCopy (fun _ => 9) (fun i => i + 1) 3 5 2 = 3
    ∧ remapInPlace 0 (fun i => i + 1) 4 (4 * 10) 2 = 3 :=
  ⟨((claim_C9_remap_preserves 0 (fun _ => 9) (fun i => i + 1) 3 5 4 2).1
      (by decide)).1,
   ((claim_C9_remap_preserves 0 (fun _ => 9) (fun i => i + 1) 3 5 4 2).1
      (by decide)).2.1,
   ((claim_C9_remap_preserves 0 (fun _ => 9) (fun i => i + 1) 4 (4 * 10) 4 2).2
      (by decide)).1⟩

/-- Claim C5 counterexample: construct an anonymous array with sentinel 99 and capacity
2, `push_back(5)`, then `clear()`.  Afterwards `size() = 0` and `capacity() = 2`, so
index 0 lies in `[size, capacity)`, yet the slot holds 5, not the sentinel 99: `clear()`
re-fills nothing, so the claimed invariant fails after it. -/
theorem claim_C5_counterexample :
    (((mmap_vector_anon (fun _ => (0 : Nat)) 99 2).push_back
        true 0 99 5).1.clear).size = 0
    ∧ (((mmap_vector_anon (fun _ => (0 : Nat)) 99 2).push_back
        true 0 99 5).1.clear).capacity = 2
    ∧ (((mmap_vector_anon (fun _ => (0 : Nat)) 99 2).push_back
        true 0 99 5).1.clear).m_data 0 = 5
    ∧ ((5 : Nat) == 99) = false := by
  refine ⟨by decide, by decide, by decide, by decide⟩

/-- Claim C5 as amended: the sentinel-suffix property — every slot in
`[size, capacity)` holds the sentinel — is established by both constructors and
preserved by `push_back`, `reserve`, `shrink_to_fit`, and a non-shrinking `resize`;
`clear()` and a size-decreasing `resize()` may leave stale non-sentinel values in
`[size, capacity)` (see the counterexample). -/
theorem claim_C5_sentinel_suffix {α : Type} [DecidableEq α] (ok : Bool) (zero e : α)
    (junk : Nat → α) (v : mmap_vector_base α) (w : α) (nc ns cap sz : Nat)
    (file : List α) :
    SentinelSuffix e (mmap_vector_anon junk e cap)
    ∧ SentinelSuffix e (mmap_vector_from_fd zero e file cap sz)
    ∧ (SentinelSuffix e v → v.m_size ≤ v.m_capacity →
        SentinelSuffix e (v.push_back ok zero e w).1)
    ∧ (SentinelSuffix e v → SentinelSuffix e (v.reserve ok zero e nc).1)
    ∧ (SentinelSuffix e v → v.m_size ≤ ns → SentinelSuffix e (v.resize ok zero e ns).1)
    ∧ (SentinelSuffix e v → SentinelSuffix e (v.shrink_to_fit e)) := by
  refine ⟨?_, ?_, ?_, ?_, ?_, ?_⟩
  · intro i h1 h2
    show fillRange junk 0 cap e i = e
    simp only [fillRange]
    exact if_pos ⟨Nat.zero_le i, h2⟩
  · intro i h1 h2
    simp only [mmap_vector_from_fd, mmap_vector_base.shrink_to_fit] at h1 h2 ⊢
    by_cases hi : i < sz
    · exact shrinkSize_sentinel e _ sz i h1 hi
    · show fillRange (mapFile zero file cap) sz cap e i = e
      simp only [fillRange]
      exact if_pos ⟨by omega, h2⟩
  · intro hS hinv i h1 h2
    by_cases hg : v.m_size + 1 > v.m_capacity
    · cases ok
      · rw [push_back_fail zero e v w hg] at h1 h2 ⊢
        exact hS i h1 h2
      · rw [push_back_grow zero e v w hg] at h1 h2 ⊢
        simp only at h1 h2 ⊢
        simp only [setIdx, fillRange, remapInPlace]
        rw [if_neg (by omega)]
        by_cases hc : v.m_capacity ≤ i
        · rw [if_pos ⟨hc, h2⟩]
        · rw [if_neg (by omega), if_pos (by omega)]
          exact hS i (by omega) (by omega)
    · rw [push_back_no_grow ok zero e v w (by omega)] at h1 h2 ⊢
      simp only at h1 h2 ⊢
      simp only [setIdx]
      rw [if_neg (by omega)]
      exact hS i (by omega) h2
  · intro hS i h1 h2
    by_cases hg : nc > v.m_capacity
    · cases ok
      · rw [reserve_fail zero e v nc hg] at h1 h2 ⊢
        exact hS i h1 h2
      · rw [reserve_grow zero e v nc hg] at h1 h2 ⊢
        simp only at h1 h2 ⊢
        simp only [fillRange, remapInPlace]
        by_cases hc : v.m_capacity ≤ i
        · rw [if_pos ⟨hc, h2⟩]
        · rw [if_neg (by omega), if_pos (by omega)]
          exact hS i h1 (by omega)
    · rw [reserve_no_grow ok zero e v nc (by omega)] at h1 h2 ⊢
      exact hS i h1 h2
  · intro hS hns i h1 h2
    by_cases hg : ns > v.m_capacity
    · cases ok
      · rw [resize_fail zero e v ns hg] at h1 h2 ⊢
        exact hS i h1 h2
      · rw [resize_grow zero e v ns hg] at h1 h2 ⊢
        simp only at h1 h2 ⊢
        simp only [fillRange, remapInPlace]
        by_cases hc : v.m_capacity ≤ i
        · rw [if_pos ⟨hc, h2⟩]
        · rw [if_neg (by omega), if_pos (by omega)]
          exact hS i (by omega) (by omega)
    · rw [resize_no_grow ok zero e v ns (by omega)] at h1 h2 ⊢
      simp only at h1 h2 ⊢
      exact hS i (by omega) h2
  · intro hS i h1 h2
    simp only [mmap_vector_base.shrink_to_fit] at h1 h2 ⊢
    by_cases hi : i < v.m_size
    · exact shrinkSize_sentinel e v.m_data v.m_size i h1 hi
    · exact hS i (by omega) h2

theorem claim_C5_sentinel_suffix_witness :
    ((mmap_vector_anon (fun _ => 0) 7 3).push_back true 0 7 5).1.m_data 1 = 7 :=
  (claim_C5_sentinel_suffix true 0 7 (fun _ => 0)
      (mmap_vector_anon (fun _ => 0) 7 3) 5 0 0 3 0 []).2.2.1
    ((claim_C5_sentinel_suffix true 0 7 (fun _ => 0)
        (mmap_vector_anon (fun _ => 0) 7 3) 5 0 0 3 0 []).1)
    (by decide) 1 (by decide) (by decide)

/-! Helper lemmas for the round-trip claim. -/

theorem getD_range_map {α : Type} (f : Nat → α) (n j : Nat) (d : α) (h : j < n) :
    ((List.range n).map f).getD j d = f j := by
  rw [List.getD_eq_getElem?_getD, List.getElem?_map, List.getElem?_range h]
  rfl

theorem getD_mem_ne {α : Type} (ws : List α) (e : α) (j : Nat) (h : j < ws.length)
    (hne : ∀ w ∈ ws, w ≠ e) : ws.getD j e ≠ e := by
  rw [List.getD_eq_getElem?_getD, List.getElem?_eq_getElem h]
  exact hne _ (List.getElem_mem h)

theorem pushMany_ok_pointwise {α : Type} [DecidableEq α] (ok : Bool) (zero e : α) :
    ∀ (ws : List α) (v : mmap_vector_base α), v.m_size + ws.length ≤ v.m_capacity →
      (pushMany ok zero e (v, none) ws).2 = none
      ∧ (pushMany ok zero e (v, none) ws).1.m_size = v.m_size + ws.length
      ∧ (pushMany ok zero e (v, none) ws).1.m_capacity = v.m_capacity
      ∧ ∀ i, (pushMany ok zero e (v, none) ws).1.m_data i =
          if v.m_size ≤ i ∧ i < v.m_size + ws.length then ws.getD (i - v.m_size) e
          else v.m_data i := by
  intro ws
  induction ws with
  | nil =>
      intro v _
      refine ⟨rfl, by simp [pushMany], rfl, ?_⟩
      intro i
      simp only [pushMany, List.length_nil]
      rw [if_neg (by omega)]
  | cons w rest ih =>
      intro v h
      have hstep : v.m_size + 1 ≤ v.m_capacity := by
        simp only [List.length_cons] at h
        omega
      have hrw : pushMany ok zero e (v, none) (w :: rest) =
          pushMany ok zero e
            (mmap_vector_base.mk (v.m_size + 1) v.m_capacity (setIdx v.m_data v.m_size w),
              none) rest := by
        show pushMany ok zero e (v.push_back ok zero e w) rest = _
        rw [push_back_no_grow ok zero e v w hstep]
      obtain ⟨ih1, ih2, ih3, ih4⟩ := ih
        (mmap_vector_base.mk (v.m_size + 1) v.m_capacity (setIdx v.m_data v.m_size w))
        (by simp only [List.length_cons] at h; simpa using by omega)
      rw [hrw]
      refine ⟨ih1, ?_, ih3, ?_⟩
      · rw [ih2]
        simp only [List.length_cons]
        omega
      · intro i
        rw [ih4 i]
        show (if v.m_size + 1 ≤ i ∧ i < v.m_size + 1 + rest.length
              then rest.getD (i - (v.m_size + 1)) e
              else setIdx v.m_data v.m_size w i) =
            if v.m_size ≤ i ∧ i < v.m_size + (w :: rest).length
            then (w :: rest).getD (i - v.m_size) e else v.m_data i
        simp only [List.length_cons]
        by_cases h2 : i = v.m_size
        · subst h2
          rw [if_neg (by omega),
            if_pos (⟨Nat.le_refl _, by omega⟩ :
              v.m_size ≤ v.m_size ∧ v.m_size < v.m_size + (rest.length + 1)),
            Nat.sub_self, List.getD_cons_zero]
          simp [setIdx]
        · by_cases h3 : v.m_size + 1 ≤ i ∧ i < v.m_size + 1 + rest.length
          · rw [if_pos h3,
              if_pos (⟨by omega, by omega⟩ :
                v.m_size ≤ i ∧ i < v.m_size + (rest.length + 1)),
              show i - v.m_size = (i - (v.m_size + 1)) + 1 from by omega,
              List.getD_cons_succ]
          · rw [if_neg h3,
              if_neg (by omega :
                ¬(v.m_size ≤ i ∧ i < v.m_size + (rest.length + 1)))]
            simp only [setIdx]
            rw [if_neg h2]

/-- Characterization of a file-backed construction that resumes with the file's element
count: the recovered size is the unique `k` bounded by the trailing-sentinel structure of
the file, and checked access below `k` returns the file's content. -/
theorem from_fd_size_at {α : Type} [DecidableEq α] (zero e : α) (file : List α)
    (cap k : Nat) (hflen : file.length = cap) (hk : k ≤ cap)
    (hlast : k = 0 ∨ file.getD (k - 1) zero ≠ e)
    (hsent : ∀ j, k ≤ j → j < cap → file.getD j zero = e) :
    (mmap_vector_from_fd zero e file cap file.length).size = k
    ∧ (∀ i, i < k →
        (mmap_vector_from_fd zero e file cap file.length).at' i =
          Except.ok (file.getD i zero)) := by
  have hd2 : ∀ j, j < cap →
      fillRange (mapFile zero file cap) file.length cap e j = file.getD j zero := by
    intro j hj
    simp only [fillRange, mapFile]
    rw [if_neg (by omega), if_pos hj]
  have hsize : shrinkSize e (fillRange (mapFile zero file cap) file.length cap e)
      file.length = k := by
    apply shrinkSize_eq_of
    · omega
    · rcases Nat.eq_zero_or_pos k with h0 | hpos
      · exact Or.inl h0
      · rcases hlast with h0 | hne
        · exact Or.inl h0
        · refine Or.inr ?_
          rw [hd2 (k - 1) (by omega)]
          exact hne
    · intro j hj1 hj2
      rw [hd2 j (by omega)]
      exact hsent j hj1 (by omega)
  constructor
  · show shrinkSize e (fillRange (mapFile zero file cap) file.length cap e)
      file.length = k
    exact hsize
  · intro i hi
    show (if i ≥ shrinkSize e (fillRange (mapFile zero file cap) file.length cap e)
            file.length
          then Except.error "out of range"
          else Except.ok
            (fillRange (mapFile zero file cap) file.length cap e i)) = _
    rw [hsize, if_neg (by omega), hd2 i (by omega)]

/-- Claim C2: populate indices 0..9 of a fresh file-backed array of capacity 1000 with
non-sentinel values via `push_back`, close it, and construct a new array against the same
file and capacity (resuming, as the file-backed wrapper does, with the file's element
count as initial size): no push fails, and after reconstruction `size() = 10` and `at(i)`
for `i < 10` returns the value written before closing; construction fills
`[size, capacity)` with the sentinel and then trims the trailing sentinel slots. -/
theorem claim_C2_file_round_trip {α : Type} [DecidableEq α] (zero e : α) (ok : Bool)
    (ws : List α) (hlen : ws.length = 10) (hne : ∀ w ∈ ws, w ≠ e) :
    (pushMany ok zero e (mmap_vector_from_fd zero e ([] : List α) 1000 0, none) ws).2 =
        none
    ∧ (pushMany ok zero e
        (mmap_vector_from_fd zero e ([] : List α) 1000 0, none) ws).1.size = 10
    ∧ (mmap_vector_file_resume zero e
        (fileAfterClose (pushMany ok zero e
          (mmap_vector_from_fd zero e ([] : List α) 1000 0, none) ws).1) 1000).size = 10
    ∧ (∀ i, i < 10 →
        (mmap_vector_file_resume zero e
          (fileAfterClose (pushMany ok zero e
            (mmap_vector_from_fd zero e ([] : List α) 1000 0, none) ws).1) 1000).at' i =
          Except.ok (ws.getD i e)) := by
  have hv0 : mmap_vector_from_fd zero e ([] : List α) 1000 0 =
      mmap_vector_base.mk 0 1000
        (fillRange (mapFile zero ([] : List α) 1000) 0 1000 e) := rfl
  rw [hv0]
  obtain ⟨h1, h2, h3, h4⟩ := pushMany_ok_pointwise ok zero e ws
    (mmap_vector_base.mk 0 1000 (fillRange (mapFile zero ([] : List α) 1000) 0 1000 e))
    (by show 0 + ws.length ≤ 1000; omega)
  have hP : ∀ j, j < 1000 →
      (pushMany ok zero e
        (mmap_vector_base.mk 0 1000
          (fillRange (mapFile zero ([] : List α) 1000) 0 1000 e), none) ws).1.m_data j =
        (if j < 10 then ws.getD j e else e) := by
    intro j hj
    rw [h4 j]
    show (if 0 ≤ j ∧ j < 0 + ws.length then ws.getD (j - 0) e
          else fillRange (mapFile zero ([] : List α) 1000) 0 1000 e j) = _
    by_cases hj10 : j < 10
    · rw [if_pos ⟨Nat.zero_le j, by omega⟩, Nat.sub_zero, if_pos hj10]
    · rw [if_neg (by omega), if_neg hj10]
      show (if 0 ≤ j ∧ j < 1000 then e
            else mapFile zero ([] : List α) 1000 j) = e
      rw [if_pos ⟨Nat.zero_le j, hj⟩]
  have hFlen : (fileAfterClose (pushMany ok zero e
      (mmap_vector_base.mk 0 1000
        (fillRange (mapFile zero ([] : List α) 1000) 0 1000 e), none) ws).1).length =
      1000 := by
    simp only [fileAfterClose, List.length_map, List.length_range]
    exact h3
  have hFget : ∀ j, j < 1000 →
      (fileAfterClose (pushMany ok zero e
        (mmap_vector_base.mk 0 1000
          (fillRange (mapFile zero ([] : List α) 1000) 0 1000 e), none) ws).1).getD
        j zero =
      (pushMany ok zero e
        (mmap_vector_base.mk 0 1000
          (fillRange (mapFile zero ([] : List α) 1000) 0 1000 e), none) ws).1.m_data j := by
    intro j hj
    simp only [fileAfterClose]
    refine getD_range_map _ _ j zero ?_
    rw [h3]
    exact hj
  have hsz : (pushMany ok zero e
      (mmap_vector_base.mk 0 1000
        (fillRange (mapFile zero ([] : List α) 1000) 0 1000 e), none) ws).1.size = 10 := by
    show (pushMany ok zero e
      (mmap_vector_base.mk 0 1000
        (fillRange (mapFile zero ([] : List α) 1000) 0 1000 e), none) ws).1.m_size = 10
    rw [h2]
    show 0 + ws.length = 10
    omega
  obtain ⟨hC1, hC2⟩ := from_fd_size_at zero e
    (fileAfterClose (pushMany ok zero e
      (mmap_vector_base.mk 0 1000
        (fillRange (mapFile zero ([] : List α) 1000) 0 1000 e), none) ws).1)
    1000 10 hFlen (by omega)
    (Or.inr (by
      rw [hFget 9 (by omega), hP 9 (by omega), if_pos (by omega)]
      exact getD_mem_ne ws e 9 (by omega) hne))
    (by
      intro j hj1 hj2
      rw [hFget j hj2, hP j hj2, if_neg (by omega)])
  refine ⟨h1, hsz, ?_, ?_⟩
  · have heq : mmap_vector_file_resume zero e
        (fileAfterClose (pushMany ok zero e
          (mmap_vector_base.mk 0 1000
            (fillRange (mapFile zero ([] : List α) 1000) 0 1000 e), none) ws).1) 1000 =
        mmap_vector_from_fd zero e
          (fileAfterClose (pushMany ok zero e
            (mmap_vector_base.mk 0 1000
              (fillRange (mapFile zero ([] : List α) 1000) 0 1000 e), none) ws).1) 1000
          (fileAfterClose (pushMany ok zero e
            (mmap_vector_base.mk 0 1000
              (fillRange (mapFile zero ([] : List α) 1000) 0 1000 e), none) ws).1).length :=
      rfl
    rw [heq]
    exact hC1
  · intro i hi
    have h' := hC2 i hi
    rw [hFget i (by omega), hP i (by omega), if_pos hi] at h'
    exact h'

theorem claim_C2_file_round_trip_witness :
    (pushMany true 0 0 (mmap_vector_from_fd 0 0 ([] : List Nat) 1000 0, none)
        [1, 2, 3, 4, 5, 6, 7, 8, 9, 10]).2 = none
    ∧ (mmap_vector_file_resume 0 0
        (fileAfterClose (pushMany true 0 0
          (mmap_vector_from_fd 0 0 ([] : List Nat) 1000 0, none)
          [1, 2, 3, 4, 5, 6, 7, 8, 9, 10]).1) 1000).size = 10
    ∧ (mmap_vector_file_resume 0 0
        (fileAfterClose (pushMany true 0 0
          (mmap_vector_from_fd 0 0 ([] : List Nat) 1000 0, none)
          [1, 2, 3, 4, 5, 6, 7, 8, 9, 10]).1) 1000).at' 3 =
        Except.ok ([1, 2, 3, 4, 5, 6, 7, 8, 9, 10].getD 3 0) :=
  have h := claim_C2_file_round_trip 0 0 true [1, 2, 3, 4, 5, 6, 7, 8, 9, 10]
    (by decide) (by decide)
  ⟨h.1, h.2.2.1, h.2.2.2 3 (by decide)⟩

/-! Helper lemmas about `List.lookup`, the model of `std::map::find` with `StrComp`. -/

theorem lookup_append_some {β : Type} (s : String) (l1 l2 : List (String × β)) (i : β)
    (h : List.lookup s l1 = some i) : List.lookup s (l1 ++ l2) = some i := by
  induction l1 with
  | nil => simp [List.lookup] at h
  | cons p rest ih =>
      obtain ⟨k, b⟩ := p
      cases hsk : (s == k) with
      | true =>
          simp only [List.cons_append, List.lookup, hsk] at h ⊢
          exact h
      | false =>
          simp only [List.cons_append, List.lookup, hsk] at h ⊢
          exact ih h

theorem lookup_append_none {β : Type} (s : String) (l1 l2 : List (String × β))
    (h : List.lookup s l1 = none) : List.lookup s (l1 ++ l2) = List.lookup s l2 := by
  induction l1 with
  | nil => simp
  | cons p rest ih =>
      obtain ⟨k, b⟩ := p
      cases hsk : (s == k) with
      | true => simp [List.lookup, hsk] at h
      | false =>
          simp only [List.cons_append, List.lookup, hsk] at h ⊢
          exact ih h

theorem not_mem_keys_of_lookup_none {β : Type} (s : String) (l : List (String × β))
    (h : List.lookup s l = none) : s ∉ l.map Prod.fst := by
  induction l with
  | nil => simp
  | cons p rest ih =>
      obtain ⟨k, b⟩ := p
      cases hsk : (s == k) with
      | true => simp [List.lookup, hsk] at h
      | false =>
          simp only [List.lookup, hsk] at h
          simp only [List.map_cons, List.mem_cons]
          rintro (h1 | h1)
          · exact absurd (beq_iff_eq.mpr h1) (by simp [hsk])
          · exact ih h h1

theorem lookup_mem_snd {β : Type} (s : String) (l : List (String × β)) (i : β)
    (h : List.lookup s l = some i) : i ∈ l.map Prod.snd := by
  induction l with
  | nil => simp [List.lookup] at h
  | cons p rest ih =>
      obtain ⟨k, b⟩ := p
      cases hsk : (s == k) with
      | true =>
          simp only [List.lookup, hsk, Option.some.injEq] at h
          simp [h.symm]
      | false =>
          simp only [List.lookup, hsk] at h
          simp only [List.map_cons, List.mem_cons]
          exact Or.inr (ih h)

/-- Insertion of a fresh string preserves well-formedness. -/
theorem StringTable.add_wf (max_entries : Nat) (t : StringTable) (s : String)
    (h : t.Wf) : (StringTable.add max_entries t s).1.Wf := by
  obtain ⟨hlen, hsnd, hnd⟩ := h
  cases hl : t.m_index.lookup s with
  | some i =>
      simp only [StringTable.add, hl]
      exact ⟨hlen, hsnd, hnd⟩
  | none =>
      have hwf' : (StringTable.mk (t.m_index ++ [(s, t.m_size + 1)]) (t.m_size + 1)).Wf := by
        refine ⟨by simp [hlen], ?_, ?_⟩
        · simp only [List.map_append, List.map_cons, List.map_nil, hsnd,
            List.length_append, List.length_cons, List.length_nil, hlen]
          rw [List.range'_concat]
          simp [Nat.add_comm]
        · simp only [List.map_append, List.map_cons, List.map_nil]
          rw [List.nodup_append]
          refine ⟨hnd, List.nodup_singleton s, ?_⟩
          intro x hx hxs
          simp only [List.mem_singleton] at hxs
          subst hxs
          exact not_mem_keys_of_lookup_none x t.m_index hl hx
      by_cases hmax : t.m_size + 1 > max_entries
      · simpa [StringTable.add, hl, hmax] using hwf'
      · simpa [StringTable.add, hl, hmax] using hwf'

/-- Every `add` preserves the result of earlier lookups. -/
theorem StringTable.add_preserves_lookup (max_entries : Nat) (t : StringTable)
    (s s2 : String) (i2 : Nat) (h : t.m_index.lookup s2 = some i2) :
    (StringTable.add max_entries t s).1.m_index.lookup s2 = some i2 := by
  cases hl : t.m_index.lookup s with
  | some i =>
      simpa [StringTable.add, hl] using h
  | none =>
      by_cases hmax : t.m_size + 1 > max_entries
      · simp only [StringTable.add, hl, if_pos hmax]
        exact lookup_append_some s2 t.m_index [(s, t.m_size + 1)] i2 h
      · simp only [StringTable.add, hl, if_neg hmax]
        exact lookup_append_some s2 t.m_index [(s, t.m_size + 1)] i2 h

/-- Any sequence of `add` calls starting from a well-formed table stays well-formed. -/
theorem StringTable.addAll_wf (max_entries : Nat) :
    ∀ (ws : List String) (t : StringTable), t.Wf →
      (StringTable.addAll max_entries t ws).Wf := by
  intro ws
  induction ws with
  | nil => intro t h; exact h
  | cons s rest ih =>
      intro t h
      exact ih (StringTable.add max_entries t s).1
        (StringTable.add_wf max_entries t s h)

/-- Claim C10: `StringTable::add` deduplicates by string content.  Adding a string whose
content is already present returns the stored index (which the first `add` of that string
returned and every later `add` preserves) without touching the state; adding a fresh
string assigns `m_size + 1` — one more than the previous maximum index, since
well-formedness pins the assigned indices to `1..m_size` — and `size()` always equals the
number of distinct strings added plus one.  Well-formedness is established by the
constructor and preserved by every `add` sequence. -/
theorem claim_C10_stringtable_add (max_entries : Nat) (t : StringTable) (s : String)
    (ws : List String) (h : t.Wf) :
    (∀ i, t.m_index.lookup s = some i →
        StringTable.add max_entries t s = (t, Except.ok i) ∧ i ≤ t.m_size)
    ∧ (t.m_index.lookup s = none →
        (StringTable.add max_entries t s).1.m_size = t.m_size + 1
        ∧ (StringTable.add max_entries t s).1.m_index.lookup s = some (t.m_size + 1)
        ∧ (t.m_size + 1 ≤ max_entries →
            (StringTable.add max_entries t s).2 = Except.ok (t.m_size + 1)))
    ∧ (∀ s2 i2, t.m_index.lookup s2 = some i2 →
        (StringTable.add max_entries t s).1.m_index.lookup s2 = some i2)
    ∧ (StringTable.add max_entries t s).1.Wf
    ∧ (StringTable.addAll max_entries t ws).Wf
    ∧ StringTable.init.Wf
    ∧ t.size = t.m_index.length + 1 := by
  obtain ⟨hlen, hsnd, hnd⟩ := h
  refine ⟨?_, ?_, ?_, ?_, ?_, ?_, ?_⟩
  · intro i hi
    constructor
    · simp [StringTable.add, hi]
    · have hmem : i ∈ t.m_index.map Prod.snd := lookup_mem_snd s t.m_index i hi
      rw [hsnd] at hmem
      rw [List.mem_range'_1] at hmem
      omega
  · intro hnone
    refine ⟨?_, ?_, ?_⟩
    · by_cases hmax : t.m_size + 1 > max_entries
      · simp [StringTable.add, hnone, hmax]
      · simp [StringTable.add, hnone, hmax]
    · have hl1 : (t.m_index ++ [(s, t.m_size + 1)]).lookup s = some (t.m_size + 1) := by
        rw [lookup_append_none s t.m_index [(s, t.m_size + 1)] hnone]
        simp [List.lookup]
      by_cases hmax : t.m_size + 1 > max_entries
      · simpa [StringTable.add, hnone, hmax] using hl1
      · simpa [StringTable.add, hnone, hmax] using hl1
    · intro hle
      have hmax : ¬(max_entries < t.m_size + 1) := by omega
      simp [StringTable.add, hnone, hmax]
  · intro s2 i2 h2
    exact StringTable.add_preserves_lookup max_entries t s s2 i2 h2
  · exact StringTable.add_wf max_entries t s ⟨hlen, hsnd, hnd⟩
  · exact StringTable.addAll_wf max_entries ws t ⟨hlen, hsnd, hnd⟩
  · exact ⟨rfl, rfl, List.nodup_nil⟩
  · simp [StringTable.size, hlen]

theorem claim_C10_stringtable_add_witness :
    (StringTable.add 1000 StringTable.init "a").1.m_size = 1
    ∧ StringTable.add 1000 (StringTable.add 1000 StringTable.init "a").1 "a" =
        ((StringTable.add 1000 StringTable.init "a").1, Except.ok 1)
    ∧ StringTable.init.size = 1 :=
  have hinit : StringTable.Wf StringTable.init := ⟨rfl, rfl, List.nodup_nil⟩
  have A := claim_C10_stringtable_add 1000 StringTable.init "a" [] hinit
  have hfresh := A.2.1 rfl
  have B := claim_C10_stringtable_add 1000 (StringTable.add 1000 StringTable.init "a").1
    "a" [] (A.2.2.2.1)
  ⟨hfresh.1, (B.1 1 hfresh.2.1).1, A.2.2.2.2.2.2⟩
